import Mathlib

/-!
Verification of the `cly` command-line dispatch framework.

This file is a shallow embedding of the repository sources:
- `src/cly/main.py` : `CommandNode`, `CLIGroup`, `CLI` (tree of commands,
  registration via `cmd`, mounting via `include_group`, dispatch via `exec`,
  and the bash completion compiler `print_completion`);
- `src/cli/main.py` : the flat `argparse`-based variant (its `option`
  decorator and duplicate-name check).

Python dictionaries are insertion-ordered, so `CommandNode.children` is
modelled as an insertion-ordered association list (`Children`).  Handlers are
opaque and identified by a natural number; the parameter list that Python
obtains through `inspect.signature(func)` is the `signature` field.  Python
`str` methods (`strip`, `split`, `startswith`) are modelled character-wise on
`String.data`.  The standard-library `argparse` calls made by `CLI.exec`
(`add_argument` for positionals and `--name` options, `parse_known_args`) are
modelled by `parseLoop` for exactly the subset the code uses: every required
parameter becomes a single-token positional, every defaulted parameter becomes
a `--name` option; `-h`/`--help` aborts with exit code 0, a parse failure
aborts with exit code 2, unrecognized tokens are collected as extras.  The
`--` end-of-options separator and option-name abbreviation are not modelled
(no claim exercises them).
-/

namespace Cly

/-- One handler parameter as seen through `inspect.signature`: `default = none`
models `inspect.Parameter.empty`, i.e. a required parameter. -/
structure Param where
  name : String
  default : Option String
deriving DecidableEq

/-- The mutable attributes of a `CommandNode` other than its name and
children: `help`, `func`, `signature`, `completion` (src/cly/main.py lines
6-12).  `func` is an opaque handler id. -/
structure NodeData where
  help : String
  func : Option Nat
  signature : Option (List Param)
  completion : List (String × List String)
deriving DecidableEq

mutual
/-- `CommandNode` of src/cly/main.py: name (None at a bare node), data, and
the insertion-ordered children dictionary. -/
inductive CommandNode : Type where
  | node (name : Option String) (data : NodeData) (children : Children)

/-- The `children` dictionary: insertion-ordered map from name to node. -/
inductive Children : Type where
  | nil
  | cons (key : String) (child : CommandNode) (rest : Children)
end

def CommandNode.nameOf : CommandNode → Option String
  | .node n _ _ => n

def CommandNode.dataOf : CommandNode → NodeData
  | .node _ d _ => d

def CommandNode.childrenOf : CommandNode → Children
  | .node _ _ cs => cs

def CommandNode.funcOf (t : CommandNode) : Option Nat := t.dataOf.func

def CommandNode.sigOf (t : CommandNode) : Option (List Param) := t.dataOf.signature

def CommandNode.complOf (t : CommandNode) : List (String × List String) := t.dataOf.completion

/-- Dictionary lookup `self.children[name]` (first, hence unique, binding). -/
def Children.lookupC : Children → String → Option CommandNode
  | .nil, _ => none
  | .cons k c rest, a => if k = a then some c else rest.lookupC a

/-- Dictionary assignment `self.children[name] = child`: replaces an existing
binding in place, otherwise appends (Python dicts keep insertion order). -/
def Children.setC : Children → String → CommandNode → Children
  | .nil, k, v => .cons k v .nil
  | .cons k0 c0 rest, k, v =>
      if k0 = k then .cons k v rest else .cons k0 c0 (rest.setC k v)

/-- `list(self.children.keys())`. -/
def Children.keysOf : Children → List String
  | .nil => []
  | .cons k _ rest => k :: rest.keysOf

/-- Truthiness test `if node.children`. -/
def Children.isNilC : Children → Bool
  | .nil => true
  | .cons _ _ _ => false

/-- `CommandNode(name)` with default arguments: empty help, no handler. -/
def freshNode (name : String) : CommandNode :=
  .node (some name) ⟨"", none, none, []⟩ .nil

def setChild (t : CommandNode) (k : String) (v : CommandNode) : CommandNode :=
  .node t.nameOf t.dataOf (t.childrenOf.setC k v)

/-- `CommandNode.find_node` (src/cly/main.py lines 22-34): greedy descent that
consumes argv tokens while each names a child; returns the reached node, the
consumed path, and the remaining tokens. -/
def findNode : CommandNode → List String → CommandNode × List String × List String
  | t, [] => (t, [], [])
  | t, a :: rest =>
      match t.childrenOf.lookupC a with
      | some c =>
          let r := findNode c rest
          (r.1, a :: r.2.1, r.2.2)
      | none => (t, [], a :: rest)

/-- Follow an explicit path of child names from a node. -/
def descendPath : CommandNode → List String → Option CommandNode
  | t, [] => some t
  | t, p :: ps =>
      match t.childrenOf.lookupC p with
      | some c => descendPath c ps
      | none => none

/-- The handler registered at a given path, if the path exists and bears one. -/
def funcAt (t : CommandNode) (p : List String) : Option Nat :=
  match descendPath t p with
  | some n => n.funcOf
  | none => none

/- Python string helpers used by `cmd` and `include_group`, modelled
character-wise. -/

/-- `str.split(sep)` for a one-character separator (Python semantics: the
empty string splits to a single empty piece). -/
def splitCharAux (sep : Char) : List Char → List Char → List (List Char)
  | [], acc => [acc.reverse]
  | c :: rest, acc =>
      if c = sep then acc.reverse :: splitCharAux sep rest []
      else splitCharAux sep rest (c :: acc)

def splitOnChar (sep : Char) (s : String) : List String :=
  (splitCharAux sep s.data []).map String.mk

/-- `str.strip(sep)` for a one-character argument: drop the character from
both ends. -/
def stripChar (sep : Char) (s : String) : String :=
  String.mk (((s.data.dropWhile (fun c => c = sep)).reverse.dropWhile
    (fun c => c = sep)).reverse)

/-- `path.strip(slash).split(slash)` as in `CLI.cmd` (line 93): note that
empty segments are kept. -/
def cmdParts (path : String) : List String :=
  splitOnChar (Char.ofNat 47) (stripChar (Char.ofNat 47) path)

/-- `[p for p in prefix.strip(slash).split(slash) if p]` as in
`CLI.include_group` (line 106): empty segments are dropped. -/
def prefixParts (pre : String) : List String :=
  (cmdParts pre).filter (fun s => !(s == ""))

/-- Core of `CLI.cmd` / `CLIGroup.cmd` (lines 92-103): descend from the given
node, lazily creating children for every path segment, then set `func`,
`help`, `completion` and `signature` on the terminal node - unconditionally,
overwriting whatever was there. -/
def cmdGo (f : Nat) (ps : List Param) (h : Option String)
    (cm : Option (List (String × List String))) :
    List String → CommandNode → CommandNode
  | [], .node n d cs =>
      .node n { d with func := some f, help := h.getD "",
                       completion := cm.getD [], signature := some ps } cs
  | p :: rest, .node n d cs =>
      let child := (cs.lookupC p).getD (freshNode p)
      .node n d (cs.setC p (cmdGo f ps h cm rest child))

/-- The `CLI` object (also stands for `CLIGroup`, whose `cmd` and
`include_group` methods are verbatim copies of `CLI`'s). -/
structure CLI where
  name : String
  desc : String
  root : CommandNode

/-- `CLI(name, desc)`: the root node carries the CLI name and description. -/
def CLI.init (name desc : String) : CLI :=
  ⟨name, desc, .node (some name) ⟨desc, none, none, []⟩ .nil⟩

/-- The `@cli.cmd(path, help, completion)` decorator applied to a handler `f`
whose introspected signature is `ps`. -/
def CLI.cmdReg (c : CLI) (path : String) (f : Nat) (ps : List Param)
    (h : Option String) (cm : Option (List (String × List String))) : CLI :=
  { c with root := cmdGo f ps h cm (cmdParts path) c.root }

/-- `to_node.func = from_node.func; to_node.help = ...; to_node.completion =
...; to_node.signature = ...` executed only `if from_node.func is not None`
(lines 111-115): the whole data record is taken from the source node. -/
def overwriteData (src : NodeData) (t : CommandNode) : CommandNode :=
  if src.func.isSome then .node t.nameOf src t.childrenOf else t

mutual
/-- `copy_subtree(from_node, to_node)` of `CLI.include_group` (lines 110-117):
copy the handler data when present, then recursively merge every child. -/
def copySubtree : CommandNode → CommandNode → CommandNode
  | .node _ d cs, t => copyChildren cs (overwriteData d t)

/-- The `for cname, child in from_node.children.items()` loop of
`copy_subtree`: each source child is merged into the matching (lazily
created) target child, in insertion order. -/
def copyChildren : Children → CommandNode → CommandNode
  | .nil, t => t
  | .cons k c rest, t =>
      copyChildren rest
        (setChild t k (copySubtree c ((t.childrenOf.lookupC k).getD (freshNode k))))
end

/-- Descent part of `CLI.include_group` (lines 106-109) followed by the
`copy_subtree` call at the terminal prefix node. -/
def mountGo (g : CommandNode) : List String → CommandNode → CommandNode
  | [], t => copySubtree g t
  | p :: rest, t =>
      setChild t p (mountGo g rest ((t.childrenOf.lookupC p).getD (freshNode p)))

/-- `CLI.include_group(group, prefix)` (src/cly/main.py lines 105-118). -/
def CLI.includeGroupM (c : CLI) (g : CLI) (pre : String) : CLI :=
  { c with root := mountGo g.root (prefixParts pre) c.root }

/- Model of the `argparse` subset used by `CLI.exec` (lines 141-149). -/

/-- Token shapes that `argparse` refuses to treat as a positional value:
anything starting with a dash, except a bare dash and (since the parsers here
have no dash-digit option strings) a negative number. -/
def isNegNumber (s : String) : Bool :=
  match s.data with
  | c :: rest => c = Char.ofNat 45 && !rest.isEmpty && rest.all Char.isDigit
  | [] => false

def optLike (s : String) : Bool :=
  match s.data with
  | c :: rest => c = Char.ofNat 45 && !rest.isEmpty && !(isNegNumber s)
  | [] => false

/-- Split a token at its first `=`, as `argparse` does for `--name=value`. -/
def splitEqChars : List Char → List Char → Option (List Char × List Char)
  | [], _ => none
  | c :: rest, acc =>
      if c = Char.ofNat 61 then some (acc.reverse, rest)
      else splitEqChars rest (c :: acc)

def splitEqTok (s : String) : String × Option String :=
  match splitEqChars s.data [] with
  | none => (s, none)
  | some (b, v) => (String.mk b, some (String.mk v))

/-- Does `base` spell `--name` for one of the declared option names? -/
def matchOpt (optNames : List String) (base : String) : Option String :=
  optNames.find? (fun n => base == "--" ++ n)

/-- Outcome of `ap.parse_known_args(remaining)`: a namespace (association list
of bound values) plus ignored extras, or an abort - `argparse` calls
`sys.exit(2)` on a parse error and `sys.exit(0)` after printing help for
`-h`/`--help` (the parser is created with `add_help=True`). -/
inductive ParseOutcome where
  | ok (values : List (String × String)) (extras : List String)
  | err
  | help
deriving DecidableEq

/-- Python-dict read, modelled on an insertion-ordered association list. -/
def lookupAssoc {α : Type} : List (String × α) → String → Option α
  | [], _ => none
  | (k, v) :: rest, a => if k = a then some v else lookupAssoc rest a

/-- Python-dict assignment: replace an existing binding in place, else
append. -/
def setAssoc {α : Type} : List (String × α) → String → α → List (String × α)
  | [], k, v => [(k, v)]
  | (k0, v0) :: rest, k, v =>
      if k0 = k then (k, v) :: rest else (k0, v0) :: setAssoc rest k v

/-- A non-option token fills the next free positional slot, or joins the
extras when every positional is already bound: the (slots, namespace, extras)
state after consuming it. -/
def posStep (pos : List String) (values : List (String × String))
    (extras : List String) (tok : String) :
    List String × List (String × String) × List String :=
  match pos with
  | [] => ([], values, extras ++ [tok])
  | p :: ps => (ps, setAssoc values p tok, extras)

/-- `parse_known_args` for a parser holding the single-token required
positionals `pos` (in declaration order) and the `--name` options `optNames`:
scan tokens left to right; `-h`/`--help` prints help and exits 0; a declared
`--name` consumes an inline `=value` or the next token (aborting if that token
is itself option-like or missing); an unrecognized option-like token goes to
the extras; any other token fills the next positional slot, or the extras when
none is left (`posStep`).  A positional slot left unfilled is a parse error
(exit 2). -/
def parseLoop (optNames : List String) :
    List String → List String → List (String × String) → List String → ParseOutcome
  | [], pos, values, extras =>
      if pos.isEmpty then .ok values extras else .err
  | tok :: rest, pos, values, extras =>
      if tok == "--help" || tok == "-h" then .help
      else if optLike tok then
        match splitEqTok tok with
        | (base, some v) =>
            match matchOpt optNames base with
            | some n => parseLoop optNames rest pos (setAssoc values n v) extras
            | none => parseLoop optNames rest pos values (extras ++ [tok])
        | (_, none) =>
            match matchOpt optNames tok with
            | some n =>
                match rest with
                | [] => .err
                | v :: rest2 =>
                    if optLike v then .err
                    else parseLoop optNames rest2 pos (setAssoc values n v) extras
            | none => parseLoop optNames rest pos values (extras ++ [tok])
      else
        parseLoop optNames rest (posStep pos values extras tok).1
          (posStep pos values extras tok).2.1 (posStep pos values extras tok).2.2

/-- Names of the required parameters, i.e. the positionals the code adds with
`ap.add_argument(p.name)` (line 146), in declaration order. -/
def reqNames (ps : List Param) : List String :=
  (ps.filter (fun p => p.default.isNone)).map (fun p => p.name)

/-- The defaulted parameters, added with `ap.add_argument(f"--{p.name}", ...)`
(line 148); their defaults populate the namespace up front. -/
def optPairs (ps : List Param) : List (String × String) :=
  ps.filterMap (fun p => p.default.map (fun d => (p.name, d)))

/-- Observable outcome of `CLI.exec`: which exit was taken, or which handler
was invoked with which keyword arguments. -/
inductive ExecResult where
  | completionExit
  | helpExit
  | helpExitZero
  | incompleteExit (path : List String) (subcmds : List String)
  | unknownExit (argv : List String)
  | argparseError
  | missingArgExit (pname : String)
  | invoke (f : Nat) (kw : List (String × String))
deriving DecidableEq

/-- The process exit status each outcome produces (`none`: the handler runs
and `exec` returns normally). -/
def exitCode : ExecResult → Option Nat
  | .completionExit => some 0
  | .helpExit => some 1
  | .helpExitZero => some 0
  | .incompleteExit _ _ => some 1
  | .unknownExit _ => some 1
  | .argparseError => some 2
  | .missingArgExit _ => some 1
  | .invoke _ _ => none

/-- The `for p in params` loop of lines 151-159: look each parameter up in the
parsed namespace; a required parameter that came back `None` reports a missing
argument and exits 1, a defaulted parameter falls back to its default; the
keyword dictionary is built in declaration order and the handler is called. -/
def bindParams (f : Nat) : List Param → List (String × String) →
    List (String × String) → ExecResult
  | [], _, kw => .invoke f kw
  | p :: ps, values, kw =>
      match p.default with
      | none =>
          match lookupAssoc values p.name with
          | none => .missingArgExit p.name
          | some v => bindParams f ps values (kw ++ [(p.name, v)])
      | some d =>
          bindParams f ps values (kw ++ [(p.name, (lookupAssoc values p.name).getD d)])

/-- `CLI.exec(args)` (src/cly/main.py lines 123-160) with `argv` the given
argument list: `--completion` anywhere prints the completion script and exits
0; an empty argv shows help and exits 1; otherwise resolve with `find_node`,
report a handlerless node (exit 1), or bind the remaining tokens through
`argparse` and invoke the handler. -/
def execCLI (c : CLI) (argv : List String) : ExecResult :=
  if argv.contains "--completion" then .completionExit
  else if argv.isEmpty then .helpExit
  else
    let r := findNode c.root argv
    match r.1.funcOf with
    | none =>
        if r.1.childrenOf.isNilC then .unknownExit argv
        else .incompleteExit r.2.1 r.1.childrenOf.keysOf
    | some f =>
        let params := r.1.sigOf.getD []
        match parseLoop ((optPairs params).map Prod.fst) r.2.2 (reqNames params)
            (optPairs params) [] with
        | .err => .argparseError
        | .help => .helpExitZero
        | .ok values _ => bindParams f params values []

/- The completion compiler `CLI.print_completion` (src/cly/main.py lines
176-374). -/

/-- `sep.join(pieces)`. -/
def joinSep (sep : String) : List String → String
  | [] => ""
  | [x] => x
  | x :: y :: rest => x ++ sep ++ joinSep sep (y :: rest)

mutual
/-- `CommandNode.collect_recursive` (lines 36-42): every handler-bearing node
with its path prefix, the node itself before its descendants. -/
def collectRec : CommandNode → List String → List (List String × CommandNode)
  | .node n d cs, pfx =>
      (if d.func.isSome then [(pfx, .node n d cs)] else []) ++ collectRecC cs pfx

def collectRecC : Children → List String → List (List String × CommandNode)
  | .nil, _ => []
  | .cons _ c rest, pfx =>
      collectRec c (pfx ++ [c.nameOf.getD ""]) ++ collectRecC rest pfx
end

mutual
/-- `CommandNode.collect_structure` (lines 44-50): every node with its path
prefix and the list of its children's keys. -/
def collectStruct : CommandNode → List String →
    List (List String × CommandNode × List String)
  | .node n d cs, pfx =>
      (pfx, .node n d cs, cs.keysOf) :: collectStructC cs pfx

def collectStructC : Children → List String →
    List (List String × CommandNode × List String)
  | .nil, _ => []
  | .cons _ c rest, pfx =>
      collectStruct c (pfx ++ [c.nameOf.getD ""]) ++ collectStructC rest pfx
end

/-- The `nodes` dictionary (lines 177-180): label (prefix joined with an
underscore) to (prefix, node), for the handler-bearing nodes. -/
def buildNodes (root : CommandNode) : List (String × (List String × CommandNode)) :=
  (collectRec root []).foldl (fun acc e => setAssoc acc (joinSep "_" e.1) e) []

/-- The `subcmds_map` dictionary (lines 185-191): for every non-root node with
children, label to children keys. -/
def buildSubcmds (root : CommandNode) : List (String × List String) :=
  (collectStruct root []).foldl
    (fun acc e =>
      if e.1.isEmpty then acc
      else if e.2.2.isEmpty then acc
      else setAssoc acc (joinSep "_" e.1) e.2.2) []

/-- The contents of the `all_cmds` set (lines 181-187): the root's children
keys (the only `collect_structure` row with an empty prefix is the root's). -/
def rootCmdKeys (root : CommandNode) : List String :=
  root.childrenOf.keysOf

/-- `dict.setdefault(k, d)`. -/
def setdefaultA {α : Type} (m : List (String × α)) (k : String) (d : α) :
    List (String × α) :=
  if (lookupAssoc m k).isSome then m else m ++ [(k, d)]

/-- `if opt not in opt_map[label]: opt_map[label].append(opt)`. -/
def appendIfAbsent (m : List (String × List String)) (k v : String) :
    List (String × List String) :=
  match lookupAssoc m k with
  | some l => if l.contains v then m else setAssoc m k (l ++ [v])
  | none => m ++ [(k, [v])]

/-- `val_map[label][arg] = vals`. -/
def setInnerVM (vm : List (String × List (String × List String)))
    (label arg : String) (vals : List String) :
    List (String × List (String × List String)) :=
  match lookupAssoc vm label with
  | some inner => setAssoc vm label (setAssoc inner arg vals)
  | none => vm ++ [(label, [(arg, vals)])]

/-- One iteration of the `for label, (prefix, node) in nodes.items()` loop
(lines 192-204), threading `opt_map` and `val_map`. -/
def optValStep
    (st : List (String × List String) × List (String × List (String × List String)))
    (e : String × (List String × CommandNode)) :
    List (String × List String) × List (String × List (String × List String)) :=
  let label := e.1
  let nd := e.2.2
  let om0 := setdefaultA st.1 label []
  let om1 := match nd.sigOf with
    | some ps => ps.foldl (fun m p => appendIfAbsent m label ("--" ++ p.name)) om0
    | none => om0
  match nd.complOf with
  | [] => (om1, st.2)
  | a :: rest =>
      let vm0 := setdefaultA st.2 label []
      (a :: rest).foldl
        (fun st2 av =>
          (appendIfAbsent st2.1 label ("--" ++ av.1),
           setInnerVM st2.2 label av.1 av.2)) (om1, vm0)

/-- The `arrays` block (lines 205-210): one bash array per (label, arg) pair
of `val_map`, each candidate double-quoted. -/
def arrayLines (vm : List (String × List (String × List String))) : List String :=
  vm.foldl
    (fun acc e =>
      acc ++ e.2.map (fun av =>
        "_COMP_" ++ e.1 ++ "__" ++ av.1 ++ "=(" ++
          joinSep " " (av.2.map (fun v => "\"" ++ v ++ "\"")) ++ ")")) []

/-- The emitted completion script (lines 211-374), given the already-sorted
contents of `all_cmds`.  Every other iteration in the source walks Python
dictionaries, whose order is insertion order and hence a function of the
tree. -/
def completionCore (name : String) (root : CommandNode) (sortedCmds : List String) :
    String :=
  let nodes := buildNodes root
  let subcmds := buildSubcmds root
  let ov := nodes.foldl optValStep ([], [])
  let scriptA : List String :=
    ["#!/bin/bash"] ++ arrayLines ov.2 ++
    ["",
     "_" ++ name ++ "_completion() \x7b",
     "    local cur prev words cword",
     "    COMPREPLY=()",
     "    cur=\"$\x7bCOMP_WORDS[COMP_CWORD]\x7d\"",
     "    prev=\"$\x7bCOMP_WORDS[COMP_CWORD-1]\x7d\"",
     "    words=(\"$\x7bCOMP_WORDS[@]\x7d\")",
     "    cword=$COMP_CWORD",
     "",
     "    cmds=\"" ++ joinSep " " sortedCmds ++ "\"",
     "",
     "    declare -A subcmds"]
  let scriptB := subcmds.map (fun e =>
    "    subcmds[\"" ++ e.1 ++ "\"]=\"" ++ joinSep " " e.2 ++ "\"")
  let scriptC := ["    declare -A opts"] ++ ov.1.map (fun e =>
    "    opts[\"" ++ e.1 ++ "\"]=\"" ++ joinSep " " e.2 ++ "\"")
  let scriptD := ["    declare -A vals"] ++ ov.2.foldl
    (fun acc e => acc ++ e.2.map (fun av =>
      "    vals[\"" ++ e.1 ++ "__" ++ av.1 ++ "\"]=\"" ++ joinSep " " av.2 ++ "\"")) []
  let scriptE : List String :=
    ["",
     "    find_cmd_label() \x7b",
     "        local idx=1",
     "        local curr_label=\"\"",
     "        local last_label=\"\"",
     "        while ((idx < cword)); do",
     "            local arg=\"$\x7bwords[idx]\x7d\"",
     "            [[ \"$arg\" == --* ]] && break",
     "            if [[ -z \"$curr_label\" ]]; then",
     "                curr_label=\"$arg\"",
     "            else",
     "                curr_label=\"$\x7bcurr_label\x7d_$arg\"",
     "            fi",
     "            if [[ -n \"$\x7bsubcmds[$curr_label]\x7d\" ]]; then",
     "                last_label=\"$curr_label\"",
     "            else",
     "                last_label=\"$curr_label\"",
     "                break",
     "            fi",
     "            ((idx++))",
     "        done",
     "        echo \"$last_label $idx\"",
     "    \x7d",
     "",
     "    if [[ $cword -eq 1 ]]; then",
     "        COMPREPLY=( $(compgen -W \"$cmds\" -- \"$cur\") )",
     "        return 0",
     "    fi",
     "",
     "    read sub_label argstart <<<\"$(find_cmd_label)\"",
     "",
     "    # Enforce fallback label if nothing found",
     "    if [[ -z \"$sub_label\" ]]; then",
     "        sub_label=\"$\x7bwords[1]\x7d\"",
     "        argstart=2",
     "    fi",
     "",
     "    # Collect which options are already set",
     "    already_set_opts=()",
     "    idx=$argstart",
     "    while ((idx < cword)); do",
     "        word=\"$\x7bwords[idx]\x7d\"",
     "        if [[ \"$word\" == --* ]]; then",
     "            argn=\"$\x7bword%%=*\x7d\"",
     "            argn=\"$\x7bargn#--\x7d\"",
     "            already_set_opts+=(\"$argn\")",
     "            if [[ \"$word\" != *=* ]]; then",
     "                # Value for option follows as next arg, unless it is another --opt",
     "                if ((idx + 1 < cword)); then",
     "                    nextw=\"$\x7bwords[idx+1]\x7d\"",
     "                    if [[ ! \"$nextw\" == --* ]]; then",
     "                        ((idx++))",
     "                    fi",
     "                fi",
     "            fi",
     "        fi",
     "        ((idx++))",
     "    done",
     "",
     "    # remove already set options from suggestions",
     "    remaining_opts=()",
     "    for opt in $\x7bopts[$sub_label]\x7d; do",
     "        o=\"$\x7bopt#--\x7d\"",
     "        skip=0",
     "        for ao in \"$\x7balready_set_opts[@]\x7d\"; do",
     "            [[ \"$o\" == \"$ao\" ]] && skip=1 && break",
     "        done",
     "        [[ $skip -eq 0 ]] && remaining_opts+=(\"$opt\")",
     "    done",
     "",
     "    # Suggest subcommands, unless one is already present at that position",
     "    if [[ -n \"$\x7bsubcmds[$sub_label]\x7d\" && $cword -eq $argstart ]]; then",
     "        # only suggest subcommand if not already one of the words",
     "        present=0",
     "        for sub in $\x7bsubcmds[$sub_label]\x7d; do",
     "            if [[ \"$\x7bwords[argstart]\x7d\" == \"$sub\" ]]; then",
     "                present=1",
     "            fi",
     "        done",
     "        if [[ $present -eq 0 ]]; then",
     "            COMPREPLY=( $(compgen -W \"$\x7bsubcmds[$sub_label]\x7d\" -- \"$cur\") )",
     "            return 0",
     "        fi",
     "    fi",
     "",
     "    # Suggest possible values for --option",
     "    if [[ \"$prev\" == --* ]]; then",
     "        argname=\"$\x7bprev#--\x7d\"",
     "        if [[ -n \"$\x7bvals[$\x7bsub_label\x7d__$\x7bargname\x7d]\x7d\" ]]; then",
     "            COMPREPLY=( $(compgen -W \"$\x7bvals[$\x7bsub_label\x7d__$\x7bargname\x7d]\x7d\" -- \"$cur\") )",
     "            return 0",
     "        fi",
     "    fi",
     "",
     "    # Suggest possible values for --option=",
     "    if [[ \"$cur\" == --*=* ]]; then",
     "        argname=\"$\x7bcur%%=*\x7d\"",
     "        argname=\"$\x7bargname#--\x7d\"",
     "        val_primary=\"$\x7bcur#*=\x7d\"",
     "        if [[ -n \"$\x7bvals[$\x7bsub_label\x7d__$\x7bargname\x7d]\x7d\" ]]; then",
     "            COMPREPLY=( $(compgen -W \"$\x7bvals[$\x7bsub_label\x7d__$\x7bargname\x7d]\x7d\" -- \"$val_primary\") )",
     "            return 0",
     "        fi",
     "    fi",
     "",
     "    # After a value, suggest the remaining options",
     "    # If previous was a value for an option, check which option it was",
     "    if ((cword>=2)); then",
     "        prev2=\"$\x7bCOMP_WORDS[COMP_CWORD-2]\x7d\"",
     "        if [[ \"$prev2\" == --* ]]; then",
     "            argname=\"$\x7bprev2#--\x7d\"",
     "            if [[ -n \"$\x7bvals[$\x7bsub_label\x7d__$\x7bargname\x7d]\x7d\" ]]; then",
     "                # Only suggest remaining not-set options",
     "                if (($\x7b#remaining_opts[@]\x7d)); then",
     "                    COMPREPLY=( $(compgen -W \"$\x7bremaining_opts[*]\x7d\" -- \"$cur\") )",
     "                    return 0",
     "                fi",
     "            fi",
     "        fi",
     "    fi",
     "",
     "    # If at a leaf (no subcmds), suggest options not yet given",
     "    if [[ -z \"$\x7bsubcmds[$sub_label]\x7d\" && $\x7b#remaining_opts[@]\x7d -gt 0 ]]; then",
     "        COMPREPLY=( $(compgen -W \"$\x7bremaining_opts[*]\x7d\" -- \"$cur\") )",
     "        return 0",
     "    fi",
     "",
     "    # Default: always able to complete options for this command node",
     "    if [[ $\x7b#remaining_opts[@]\x7d -gt 0 ]]; then",
     "        COMPREPLY+=( $(compgen -W \"$\x7bremaining_opts[*]\x7d\" -- \"$cur\") )",
     "    fi",
     "",
     "    return 0",
     "\x7d",
     "complete -F _" ++ name ++ "_completion " ++ name]
  joinSep "\n" (scriptA ++ scriptB ++ scriptC ++ scriptD ++ scriptE)

/-- Strict lexicographic comparison of code-point sequences, as Python
compares strings. -/
def lexLtB : List Char → List Char → Bool
  | [], [] => false
  | [], _ :: _ => true
  | _ :: _, [] => false
  | a :: as, b :: bs =>
      if a.toNat < b.toNat then true
      else if b.toNat < a.toNat then false
      else lexLtB as bs

def strLeB (a b : String) : Bool := !(lexLtB b.data a.data)

def strLe (a b : String) : Prop := strLeB a b = true

instance : DecidableRel strLe := fun _ _ => inferInstanceAs (Decidable (_ = true))

/-- `sorted(...)` on strings: Python sorts lexicographically by code point. -/
def sortStrings (l : List String) : List String :=
  l.insertionSort strLe

/-- `print_completion` with the iteration order of the `all_cmds` set made
explicit: `e` is the sequence the set yields when `sorted` consumes it.  A
Python set of strings enumerates its elements in an order that may differ from
run to run (hash randomization); any single run yields each element exactly
once, so `e` is a permutation of the set's contents. -/
def printCompletionWith (c : CLI) (e : List String) : String :=
  completionCore c.name c.root (sortStrings e)

/-- The script `CLI.print_completion` writes to stdout. -/
def printCompletionOut (c : CLI) : String :=
  printCompletionWith c (rootCmdKeys c.root)

/- Structural invariants of the tree. -/

/-- A live node: bears a handler or has at least one child. -/
def goodNode (t : CommandNode) : Bool :=
  t.funcOf.isSome || !t.childrenOf.isNilC

mutual
/-- Every node of the subtree, the root of the subtree included, is live. -/
def allGood : CommandNode → Bool
  | .node _ d cs => (d.func.isSome || !cs.isNilC) && allGoodC cs

def allGoodC : Children → Bool
  | .nil => true
  | .cons _ c rest => allGood c && allGoodC rest
end

mutual
/-- Child keys are duplicate-free at every node, as they are for a tree whose
children mappings arise from Python dictionaries. -/
def nodupTree : CommandNode → Bool
  | .node _ _ cs => nodupC cs

def nodupC : Children → Bool
  | .nil => true
  | .cons k c rest => !(rest.keysOf.contains k) && nodupTree c && nodupC rest
end

/- The flat variant src/cli/main.py. -/

/-- Outcome of registering a top-level command name in the `argparse`-based
variant. -/
inductive RegOutcome where
  | ok (registered : List String)
  | conflict (name : String)
deriving DecidableEq

/-- `CLI.option` of src/cli/main.py (lines 34-51), reduced to its registration
bookkeeping: a name already in `self._commands` raises
`ValueError(f"Command ... already registered.")`, otherwise the name is
recorded. -/
def optionRegister (registered : List String) (n : String) : RegOutcome :=
  if registered.contains n then .conflict n else .ok (registered ++ [n])

/-- A flag-like token in the sense of the specification: leading `--`. -/
def flagLike (s : String) : Bool :=
  match s.data with
  | c1 :: c2 :: _ => c1 = Char.ofNat 45 && c2 = Char.ofNat 45
  | _ => false

/-- The keyword dictionary the binding loop hands to the handler when every
required parameter was bound: one entry per declared parameter, in
declaration order, each taken from the parsed namespace with the declared
default as fallback. -/
def kwOf (ps : List Param) (values : List (String × String)) :
    List (String × String) :=
  ps.map (fun p => (p.name,
    match p.default with
    | none => (lookupAssoc values p.name).getD ""
    | some d => (lookupAssoc values p.name).getD d))

/- Concrete trees used as witnesses and counterexamples below. -/

/-- A CLI with one command `greet(name, greeting="hello")` (handler id 0). -/
def greetCLI : CLI :=
  (CLI.init "cli" "").cmdReg "greet" 0
    [⟨"name", none⟩, ⟨"greeting", some "hello"⟩] none none

/-- A CLI with one command `greet(name)` (handler id 0). -/
def greetReqCLI : CLI :=
  (CLI.init "cli" "").cmdReg "greet" 0 [⟨"name", none⟩] none none

/-- A CLI with one command `greet(greeting="hello")` (handler id 0). -/
def greetOptCLI : CLI :=
  (CLI.init "cli" "").cmdReg "greet" 0 [⟨"greeting", some "hello"⟩] none none

/-- A CLI with commands `deploy prod` and `deploy staging`. -/
def deployCLI : CLI :=
  ((CLI.init "cli" "").cmdReg "deploy/prod" 3 [] none none).cmdReg
    "deploy/staging" 4 [] none none

/-- A mount target carrying handler 0 at path `x`. -/
def mountTarget : CLI := (CLI.init "cli" "").cmdReg "x" 0 [] none none

/-- A group carrying handler 1 at the same path `x`. -/
def mountGroup : CLI := (CLI.init "sub" "").cmdReg "x" 1 [] none none

/- Proofs. -/

theorem lexLtB_asymm : ∀ x y : List Char, lexLtB x y = true → lexLtB y x = false
  | [], [] => by simp [lexLtB]
  | [], _ :: _ => by simp [lexLtB]
  | _ :: _, [] => by simp [lexLtB]
  | a :: as, b :: bs => by
      simp only [lexLtB]
      intro h
      by_cases h1 : a.toNat < b.toNat
      · simp [h1, Nat.lt_asymm h1]
      · by_cases h2 : b.toNat < a.toNat
        · simp [h1, h2] at h
        · simp only [h1, h2, if_false] at h ⊢
          exact lexLtB_asymm as bs h

theorem lexLtB_eq_of_both_false :
    ∀ x y : List Char, lexLtB x y = false → lexLtB y x = false → x = y
  | [], [] => by simp
  | [], _ :: _ => by simp [lexLtB]
  | _ :: _, [] => by simp [lexLtB]
  | a :: as, b :: bs => by
      simp only [lexLtB]
      intro h h'
      by_cases h1 : a.toNat < b.toNat
      · simp [h1] at h
      · by_cases h2 : b.toNat < a.toNat
        · simp [h2] at h'
        · simp only [h1, h2, if_false] at h h'
          have hab : a = b := Char.ext (UInt32.toNat.inj (Nat.le_antisymm
            (Nat.not_lt.mp h2) (Nat.not_lt.mp h1)))
          rw [hab, lexLtB_eq_of_both_false as bs h h']

theorem lexLtB_trans :
    ∀ x y z : List Char, lexLtB x y = true → lexLtB y z = true → lexLtB x z = true
  | [], [], _ => by simp [lexLtB]
  | [], _ :: _, [] => by simp [lexLtB]
  | [], _ :: _, _ :: _ => by simp [lexLtB]
  | _ :: _, [], _ => by simp [lexLtB]
  | _ :: _, _ :: _, [] => by simp [lexLtB]
  | a :: as, b :: bs, c :: cs => by
      simp only [lexLtB]
      intro h h'
      by_cases h1 : a.toNat < b.toNat
      · by_cases h2 : b.toNat < c.toNat
        · simp [Nat.lt_trans h1 h2]
        · by_cases h3 : c.toNat < b.toNat
          · simp [h2, h3] at h'
          · have : b.toNat = c.toNat := Nat.le_antisymm (Nat.not_lt.mp h3) (Nat.not_lt.mp h2)
            simp [this] at h1 ⊢
            simp [h1]
      · by_cases h2 : b.toNat < a.toNat
        · simp [h1, h2] at h
        · have hab : a.toNat = b.toNat := Nat.le_antisymm (Nat.not_lt.mp h2) (Nat.not_lt.mp h1)
          simp only [h1, h2, if_false] at h
          by_cases h3 : b.toNat < c.toNat
          · simp [hab, h3]
          · by_cases h4 : c.toNat < b.toNat
            · simp [h3, h4] at h'
            · simp only [h3, h4, if_false] at h'
              simp [hab, h3, h4, lexLtB_trans as bs cs h h']

instance : IsTotal String strLe := by
  constructor
  intro a b
  by_cases h : lexLtB b.data a.data = true
  · right
    simp [strLe, strLeB, lexLtB_asymm _ _ h]
  · left
    simp only [strLe, strLeB, Bool.not_eq_true] at h ⊢
    simp [h]

instance : IsTrans String strLe := by
  constructor
  intro a b c h1 h2
  simp only [strLe, strLeB, Bool.not_eq_true', Bool.not_eq_true] at h1 h2 ⊢
  by_cases hca : lexLtB c.data a.data = true
  · by_cases hbc : lexLtB b.data c.data = true
    · exact absurd (lexLtB_trans _ _ _ hbc hca) (by simp [h1])
    · have : b.data = c.data :=
        lexLtB_eq_of_both_false _ _ (by simpa using hbc) h2
      rw [← this] at hca
      simp [hca] at h1
  · simpa using hca

instance : IsAntisymm String strLe := by
  constructor
  intro a b h1 h2
  simp only [strLe, strLeB, Bool.not_eq_true'] at h1 h2
  cases a with
  | mk da =>
    cases b with
    | mk db =>
      have : db = da := lexLtB_eq_of_both_false _ _ h1 h2
      rw [this]

/-- Insertion sort returns the same sorted sequence on any two permutations
of the same multiset of strings. -/
theorem sortStrings_eq_of_perm {l1 l2 : List String} (h : l1.Perm l2) :
    sortStrings l1 = sortStrings l2 :=
  List.eq_of_perm_of_sorted
    (((List.perm_insertionSort strLe l1).trans h).trans
      (List.perm_insertionSort strLe l2).symm)
    (List.sorted_insertionSort strLe l1)
    (List.sorted_insertionSort strLe l2)

/-- C8: for every fully built tree, compiling the completion script is
deterministic: the emitted text does not depend on the iteration order of the
one unordered collection involved (the `all_cmds` set, whose enumeration is
the only run-to-run varying input of `print_completion`), so two runs on the
identical unmutated tree produce byte-identical script output. -/
theorem c8_completion_deterministic (c : CLI) (e1 e2 : List String)
    (h : e1.Perm e2) : printCompletionWith c e1 = printCompletionWith c e2 :=
  congrArg (completionCore c.name c.root) (sortStrings_eq_of_perm h)

/-- Witness for C8 at a concrete tree and a concrete pair of enumeration
orders of the root-command set. -/
theorem c8_witness :
    printCompletionWith deployCLI ["deploy", "extra"] =
      printCompletionWith deployCLI ["extra", "deploy"] :=
  c8_completion_deterministic deployCLI _ _ (List.Perm.swap "extra" "deploy" [])

theorem lookupC_setC_self : ∀ (cs : Children) (k : String) (v : CommandNode),
    (cs.setC k v).lookupC k = some v
  | .nil, k, v => by simp [Children.setC, Children.lookupC]
  | .cons k0 c0 rest, k, v => by
      by_cases h : k0 = k
      · simp [Children.setC, h, Children.lookupC]
      · simp [Children.setC, h, Children.lookupC, lookupC_setC_self rest k v]

theorem lookupC_setC_ne : ∀ (cs : Children) (k k' : String) (v : CommandNode),
    k' ≠ k → (cs.setC k' v).lookupC k = cs.lookupC k
  | .nil, k, k', v, h => by simp [Children.setC, Children.lookupC, h]
  | .cons k0 c0 rest, k, k', v, h => by
      by_cases h0 : k0 = k'
      · subst h0
        simp [Children.setC, Children.lookupC, h]
      · simp only [Children.setC, h0, if_false]
        by_cases h1 : k0 = k
        · simp [Children.lookupC, h1]
        · simp [Children.lookupC, h1, lookupC_setC_ne rest k k' v h]

theorem funcAt_nil (t : CommandNode) : funcAt t [] = t.funcOf := rfl

theorem funcAt_cons (t : CommandNode) (a : String) (ps : List String) :
    funcAt t (a :: ps) =
      match t.childrenOf.lookupC a with
      | some c => funcAt c ps
      | none => none := by
  cases h : t.childrenOf.lookupC a <;> simp [funcAt, descendPath, h]

/-- Registration always ends with the given handler bound at the full path,
whatever was there before. -/
theorem funcAt_cmdGo (f : Nat) (ps : List Param) (hs : Option String)
    (cm : Option (List (String × List String))) :
    ∀ (parts : List String) (t : CommandNode),
      funcAt (cmdGo f ps hs cm parts t) parts = some f
  | [], .node n d cs => by
      simp [cmdGo, funcAt_nil, CommandNode.funcOf, CommandNode.dataOf]
  | p :: rest, .node n d cs => by
      simp [cmdGo, funcAt_cons, CommandNode.childrenOf, lookupC_setC_self,
        funcAt_cmdGo f ps hs cm rest]

/-- C2 (corrected): `CLI.cmd` never fails; re-registering a path rebinds it to
the new handler, silently replacing the old one.  The `argparse`-based variant
(src/cli/main.py) does reject duplicates, raising `ValueError` from `option`
when the top-level name is already registered, and recording the name
otherwise. -/
theorem c2_amended :
    (∀ (c : CLI) (path : String) (f : Nat) (ps : List Param) (hs : Option String)
        (cm : Option (List (String × List String))),
      funcAt (c.cmdReg path f ps hs cm).root (cmdParts path) = some f) ∧
    (∀ (reg : List String) (n : String), n ∈ reg →
      optionRegister reg n = .conflict n) ∧
    (∀ (reg : List String) (n : String), n ∉ reg →
      optionRegister reg n = .ok (reg ++ [n])) := by
  refine ⟨fun c path f ps hs cm => funcAt_cmdGo f ps hs cm (cmdParts path) c.root,
    fun reg n h => ?_, fun reg n h => ?_⟩
  · simp [optionRegister, h]
  · simp [optionRegister, h]

/-- Witness for C2 (amended): a concrete second registration lands on the new
handler, and the flat variant's duplicate check fires on a concrete duplicate. -/
theorem c2_witness :
    funcAt ((CLI.init "cli" "").cmdReg "greet" 5 [] none none).root
      (cmdParts "greet") = some 5 ∧
    optionRegister ["greet"] "greet" = .conflict "greet" ∧
    optionRegister [] "greet" = .ok ["greet"] :=
  ⟨c2_amended.1 (CLI.init "cli" "") "greet" 5 [] none none,
   c2_amended.2.1 ["greet"] "greet" (by decide),
   c2_amended.2.2 [] "greet" (by decide)⟩

/-- C2 counterexample: registering a second handler at the already-bound path
`greet` raises nothing and replaces handler 0 with handler 7 - the claimed
RegistrationConflict does not exist in src/cly/main.py. -/
theorem c2_counterexample :
    funcAt ((greetReqCLI.cmdReg "greet" 7 [⟨"name", none⟩] none none).root)
      ["greet"] = some 7 ∧
    funcAt greetReqCLI.root ["greet"] = some 0 := by
  exact ⟨by decide, by decide⟩

/-- C7: with `greet(name, greeting="hello")`, argv `greet Ana` invokes the
handler with `name="Ana"` and the default `greeting="hello"`, and argv
`greet Ana --greeting hi` overrides `greeting` to `"hi"`. -/
theorem c7_defaults_and_override :
    execCLI greetCLI ["greet", "Ana"] =
      .invoke 0 [("name", "Ana"), ("greeting", "hello")] ∧
    execCLI greetCLI ["greet", "Ana", "--greeting", "hi"] =
      .invoke 0 [("name", "Ana"), ("greeting", "hi")] := by
  exact ⟨by decide, by decide⟩

/-- C4 (code bug): with `greet(name)` required, argv `greet` makes
`parse_known_args` itself abort - argparse reports its own missing-argument
error and exits with status 2, not 1, and the code's `Missing required
argument` branch (lines 153-156) never runs; the handler is not invoked. -/
theorem c4_missing_required_is_argparse_exit :
    execCLI greetReqCLI ["greet"] = .argparseError ∧
    exitCode (execCLI greetReqCLI ["greet"]) = some 2 ∧
    ∀ f kw, execCLI greetReqCLI ["greet"] ≠ .invoke f kw := by
  refine ⟨by decide, by decide, fun f kw h => ?_⟩
  have h0 : execCLI greetReqCLI ["greet"] = .argparseError := by decide
  rw [h0] at h
  exact ExecResult.noConfusion h

/-- C5 (corrected): `find_node` consumes the longest prefix of argv whose
tokens successively name children, and stops exactly at the first token that
is not a child name (or at exhaustion); flag-like tokens receive no special
treatment. -/
theorem c5_greedy_descent : ∀ (argv : List String) (t : CommandNode),
    (findNode t argv).2.1 ++ (findNode t argv).2.2 = argv ∧
    descendPath t (findNode t argv).2.1 = some (findNode t argv).1 ∧
    ((findNode t argv).2.2.head?.all
      (fun x => ((findNode t argv).1.childrenOf.lookupC x).isNone)) = true
  | [], t => by simp [findNode, descendPath]
  | a :: rest, t => by
      cases h : t.childrenOf.lookupC a with
      | none => simp [findNode, h, descendPath]
      | some c =>
          have ih := c5_greedy_descent rest c
          simp only [findNode, h]
          refine ⟨by simpa using ih.1, ?_, by simpa using ih.2.2⟩
          simpa [descendPath, h] using ih.2.1

/-- C5 counterexample: a child registered under the flag-like name `--g` is
consumed by the descent, although the claim requires the descent to stop at
every flag-like token. -/
theorem c5_counterexample :
    flagLike "--g" = true ∧
    (findNode ((CLI.init "cli" "").cmdReg "--g" 9 [] none none).root
      ["--g"]).2.1 = ["--g"] := by
  exact ⟨by decide, by decide⟩

/-- C6: when dispatch resolves argv (argv non-empty and without the reserved
`--completion` flag, which are handled before resolution) to a node without a
handler, `exec` reports the node's subcommands when it has children and an
unknown command otherwise, exits with status 1, and never invokes a handler. -/
theorem c6_handlerless_reporting (c : CLI) (argv : List String)
    (h1 : argv.contains "--completion" = false) (h2 : argv.isEmpty = false)
    (h3 : (findNode c.root argv).1.funcOf = none) :
    execCLI c argv =
      (if (findNode c.root argv).1.childrenOf.isNilC then
        ExecResult.unknownExit argv
       else ExecResult.incompleteExit (findNode c.root argv).2.1
        (findNode c.root argv).1.childrenOf.keysOf) ∧
    exitCode (execCLI c argv) = some 1 ∧
    ∀ f kw, execCLI c argv ≠ ExecResult.invoke f kw := by
  have h0 : execCLI c argv =
      (if (findNode c.root argv).1.childrenOf.isNilC then
        ExecResult.unknownExit argv
       else ExecResult.incompleteExit (findNode c.root argv).2.1
        (findNode c.root argv).1.childrenOf.keysOf) := by
    simp only [execCLI, h1, h2, Bool.false_eq_true, if_false, h3]
  refine ⟨h0, ?_, fun f kw h => ?_⟩
  · rw [h0]
    by_cases hn : (findNode c.root argv).1.childrenOf.isNilC
    · simp [hn, exitCode]
    · simp [hn, exitCode]
  · rw [h0] at h
    by_cases hn : (findNode c.root argv).1.childrenOf.isNilC
    · simp only [hn, if_true] at h
      exact ExecResult.noConfusion h
    · simp only [hn, Bool.false_eq_true, if_false] at h
      exact ExecResult.noConfusion h

/-- Witness for C6 at a concrete tree: `deploy` has children and no handler,
so `cli deploy` lists the subcommands and exits 1. -/
theorem c6_witness :
    execCLI deployCLI ["deploy"] =
      (if (findNode deployCLI.root ["deploy"]).1.childrenOf.isNilC then
        ExecResult.unknownExit ["deploy"]
       else ExecResult.incompleteExit (findNode deployCLI.root ["deploy"]).2.1
        (findNode deployCLI.root ["deploy"]).1.childrenOf.keysOf) ∧
    exitCode (execCLI deployCLI ["deploy"]) = some 1 ∧
    ∀ f kw, execCLI deployCLI ["deploy"] ≠ ExecResult.invoke f kw :=
  c6_handlerless_reporting deployCLI ["deploy"] (by decide) (by decide) (by decide)

theorem lookupAssoc_setAssoc_self {α : Type} (m : List (String × α)) (k : String)
    (v : α) : lookupAssoc (setAssoc m k v) k = some v := by
  induction m with
  | nil => simp [setAssoc, lookupAssoc]
  | cons kv rest ih =>
      obtain ⟨k0, v0⟩ := kv
      by_cases h : k0 = k
      · simp [setAssoc, h, lookupAssoc]
      · simp [setAssoc, h, lookupAssoc, ih]

theorem lookupAssoc_setAssoc_ne {α : Type} (m : List (String × α)) (k k' : String)
    (v : α) (h : k' ≠ k) : lookupAssoc (setAssoc m k' v) k = lookupAssoc m k := by
  induction m with
  | nil => simp [setAssoc, lookupAssoc, h]
  | cons kv rest ih =>
      obtain ⟨k0, v0⟩ := kv
      by_cases h0 : k0 = k'
      · subst h0
        simp [setAssoc, lookupAssoc, h]
      · simp only [setAssoc, h0, if_false]
        by_cases h1 : k0 = k
        · simp [lookupAssoc, h1]
        · simp [lookupAssoc, h1, ih]

theorem setAssoc_eq_append {α : Type} (m : List (String × α)) (k : String) (v : α)
    (h : lookupAssoc m k = none) : setAssoc m k v = m ++ [(k, v)] := by
  induction m with
  | nil => simp [setAssoc]
  | cons kv rest ih =>
      obtain ⟨k0, v0⟩ := kv
      simp only [lookupAssoc] at h
      by_cases h0 : k0 = k
      · simp [h0] at h
      · simp only [h0, if_false] at h
        simp [setAssoc, h0, ih h]

theorem lookupAssoc_isSome_setAssoc {α : Type} (m : List (String × α))
    (k k' : String) (v : α) (h : (lookupAssoc m k).isSome = true) :
    (lookupAssoc (setAssoc m k' v) k).isSome = true := by
  by_cases hk : k' = k
  · subst hk
    simp [lookupAssoc_setAssoc_self]
  · rw [lookupAssoc_setAssoc_ne m k k' v hk]
    exact h

/-- A successful `parse_known_args` leaves every positional bound in the
namespace, and never unbinds a name that was already bound. -/
theorem parseLoop_fills (optNames : List String) :
    ∀ (ts pos : List String) (values : List (String × String)) (extras : List String)
      (v : List (String × String)) (e : List String),
      parseLoop optNames ts pos values extras = .ok v e →
      (∀ p ∈ pos, (lookupAssoc v p).isSome = true) ∧
      (∀ n, (lookupAssoc values n).isSome = true → (lookupAssoc v n).isSome = true)
  | [], pos, values, extras, v, e, h => by
      rw [parseLoop.eq_1] at h
      split at h
      next hp =>
        injection h with h1 h2
        subst h1
        refine ⟨fun p hp2 => ?_, fun n hn => hn⟩
        cases pos with
        | nil => simp at hp2
        | cons a as => exact Bool.noConfusion hp
      next hp => exact ParseOutcome.noConfusion h
  | tok :: rest, pos, values, extras, v, e, h => by
      rw [parseLoop.eq_2] at h
      split at h
      · exact ParseOutcome.noConfusion h
      · split at h
        · split at h
          next base vv heq =>
            split at h
            next n hm =>
              have ih := parseLoop_fills optNames rest pos (setAssoc values n vv) extras v e h
              exact ⟨ih.1, fun n2 hn2 => ih.2 n2 (lookupAssoc_isSome_setAssoc _ _ _ _ hn2)⟩
            next hm =>
              exact parseLoop_fills optNames rest pos values (extras ++ [tok]) v e h
          next base heq =>
            split at h
            next n hm =>
              split at h
              · exact ParseOutcome.noConfusion h
              next w rest2 =>
                split at h
                · exact ParseOutcome.noConfusion h
                · have ih := parseLoop_fills optNames rest2 pos (setAssoc values n w) extras v e h
                  exact ⟨ih.1, fun n2 hn2 => ih.2 n2 (lookupAssoc_isSome_setAssoc _ _ _ _ hn2)⟩
            next hm =>
              exact parseLoop_fills optNames rest pos values (extras ++ [tok]) v e h
        · have ih := parseLoop_fills optNames rest (posStep pos values extras tok).1
            (posStep pos values extras tok).2.1 (posStep pos values extras tok).2.2 v e h
          cases pos with
          | nil =>
              simp only [posStep] at ih
              exact ⟨fun p hp => by simp at hp, ih.2⟩
          | cons p ps =>
              simp only [posStep] at ih
              refine ⟨fun q hq => ?_,
                fun n2 hn2 => ih.2 n2 (lookupAssoc_isSome_setAssoc _ _ _ _ hn2)⟩
              rcases List.mem_cons.mp hq with hq | hq
              · subst hq
                exact ih.2 q (by simp [lookupAssoc_setAssoc_self])
              · exact ih.1 q hq

/-- When every required parameter is looked up successfully, the binding loop
invokes the handler with exactly the declared keyword dictionary. -/
theorem bindParams_eq_invoke (f : Nat) :
    ∀ (ps : List Param) (values acc : List (String × String)),
      (∀ p ∈ ps, p.default = none → (lookupAssoc values p.name).isSome = true) →
      bindParams f ps values acc = .invoke f (acc ++ kwOf ps values)
  | [], values, acc, _ => by simp [bindParams, kwOf]
  | p :: ps, values, acc, h => by
      cases hd : p.default with
      | none =>
          have hs := h p (List.mem_cons_self p ps) hd
          rcases Option.isSome_iff_exists.mp hs with ⟨w, hw⟩
          simp only [bindParams, hd, hw]
          rw [bindParams_eq_invoke f ps values (acc ++ [(p.name, w)])
            (fun q hq hqd => h q (List.mem_cons_of_mem p hq) hqd)]
          simp [kwOf, hw, hd]
      | some d =>
          simp only [bindParams, hd]
          rw [bindParams_eq_invoke f ps values
            (acc ++ [(p.name, (lookupAssoc values p.name).getD d)])
            (fun q hq hqd => h q (List.mem_cons_of_mem p hq) hqd)]
          simp [kwOf, hd]

theorem name_mem_reqNames {ps : List Param} {p : Param} (hp : p ∈ ps)
    (hd : p.default = none) : p.name ∈ reqNames ps := by
  have hf : p ∈ ps.filter (fun q => q.default.isNone) :=
    List.mem_filter.mpr ⟨hp, by simp [hd]⟩
  exact List.mem_map.mpr ⟨p, hf, rfl⟩

/-- C10 (corrected): when argv reaches a handler-bearing node and binding
succeeds, the extras that `parse_known_args` returns are discarded without any
warning or error and the handler receives exactly its declared parameters.
The provisos are forced: a leftover `--completion` triggers the completion
script and exit 0 before dispatch, and a leftover `--help`/`-h` makes argparse
print help and exit 0, so those leftover tokens are not ignored. -/
theorem c10_extras_ignored (c : CLI) (argv : List String) (f : Nat)
    (ps : List Param) (values : List (String × String)) (extras : List String)
    (h1 : argv.contains "--completion" = false) (h2 : argv.isEmpty = false)
    (h3 : (findNode c.root argv).1.funcOf = some f)
    (h4 : (findNode c.root argv).1.sigOf = some ps)
    (h5 : parseLoop ((optPairs ps).map Prod.fst) (findNode c.root argv).2.2
      (reqNames ps) (optPairs ps) [] = .ok values extras) :
    execCLI c argv = .invoke f (kwOf ps values) ∧
    (kwOf ps values).map Prod.fst = ps.map Param.name := by
  have hfill := parseLoop_fills ((optPairs ps).map Prod.fst)
    (findNode c.root argv).2.2 (reqNames ps) (optPairs ps) [] values extras h5
  constructor
  · simp only [execCLI, h1, h2, Bool.false_eq_true, if_false, h3, h4,
      Option.getD_some, h5]
    rw [bindParams_eq_invoke f ps values []
      (fun p hp hd => hfill.1 p.name (name_mem_reqNames hp hd))]
    simp
  · simp [kwOf, List.map_map, Function.comp]

/-- Witness for C10 (amended): `greet Ana leftover` invokes the handler with
its two declared parameters; the leftover token is dropped silently. -/
theorem c10_witness :
    execCLI greetCLI ["greet", "Ana", "leftover"] =
      .invoke 0 (kwOf [⟨"name", none⟩, ⟨"greeting", some "hello"⟩]
        [("greeting", "hello"), ("name", "Ana")]) ∧
    (kwOf [⟨"name", none⟩, ⟨"greeting", some "hello"⟩]
        [("greeting", "hello"), ("name", "Ana")]).map Prod.fst =
      [Param.mk "name" none, Param.mk "greeting" (some "hello")].map Param.name :=
  c10_extras_ignored greetCLI ["greet", "Ana", "leftover"] 0
    [⟨"name", none⟩, ⟨"greeting", some "hello"⟩]
    [("greeting", "hello"), ("name", "Ana")] ["leftover"]
    (by decide) (by decide) (by decide) (by decide) (by decide)

/-- With no option-like token among the remaining tokens, the required
positionals consume the tokens in declaration order, every option keeps the
value it already had (its default), and the surplus tokens become extras. -/
theorem parseLoop_no_flags (optNames : List String) :
    ∀ (ts pos : List String) (values : List (String × String)) (extras : List String),
      (∀ t ∈ ts, optLike t = false) →
      (∀ p ∈ pos, lookupAssoc values p = none) →
      pos.Nodup →
      pos.length ≤ ts.length →
      parseLoop optNames ts pos values extras =
        .ok (values ++ pos.zip ts) (extras ++ ts.drop pos.length)
  | [], pos, values, extras, hflag, hnone, hnd, hlen => by
      have hp : pos = [] := List.eq_nil_of_length_eq_zero (Nat.le_zero.mp (by simpa using hlen))
      subst hp
      rw [parseLoop.eq_1]
      simp
  | tok :: rest, pos, values, extras, hflag, hnone, hnd, hlen => by
      have hopt : optLike tok = false := hflag tok (List.mem_cons_self tok rest)
      have hh1 : (tok == "--help") = false := by
        cases hb : tok == "--help"
        · rfl
        · exfalso
          have heq : tok = "--help" := eq_of_beq hb
          rw [heq] at hopt
          exact absurd hopt (by decide)
      have hh2 : (tok == "-h") = false := by
        cases hb : tok == "-h"
        · rfl
        · exfalso
          have heq : tok = "-h" := eq_of_beq hb
          rw [heq] at hopt
          exact absurd hopt (by decide)
      rw [parseLoop.eq_2]
      simp only [hh1, hh2, hopt, Bool.or_self, Bool.false_eq_true, if_false]
      cases pos with
      | nil =>
          simp only [posStep]
          rw [parseLoop_no_flags optNames rest [] values (extras ++ [tok])
            (fun t ht => hflag t (List.mem_cons_of_mem tok ht))
            (fun p hp => absurd hp (List.not_mem_nil p))
            List.nodup_nil (by simp)]
          simp
      | cons p ps =>
          have hnd' := List.nodup_cons.mp hnd
          simp only [posStep]
          rw [parseLoop_no_flags optNames rest ps (setAssoc values p tok) extras
            (fun t ht => hflag t (List.mem_cons_of_mem tok ht))
            (fun q hq => by
              rw [lookupAssoc_setAssoc_ne values q p tok
                (fun hpq => hnd'.1 (by rw [hpq]; exact hq))]
              exact hnone q (List.mem_cons_of_mem p hq))
            hnd'.2 (by simpa using hlen)]
          rw [setAssoc_eq_append values p tok (hnone p (List.mem_cons_self p ps))]
          simp

/-- A name never mentioned by any `--name`-shaped token and not among the
positional slots keeps its binding across the whole parse: in particular a
defaulted parameter is never satisfied by a positional token. -/
theorem parseLoop_opt_untouched (optNames : List String) (o : String) :
    ∀ (ts pos : List String) (values : List (String × String)) (extras : List String)
      (v : List (String × String)) (e : List String),
      (∀ t ∈ ts, (splitEqTok t).1 ≠ "--" ++ o ∧ t ≠ "--" ++ o) →
      o ∉ pos →
      parseLoop optNames ts pos values extras = .ok v e →
      lookupAssoc v o = lookupAssoc values o
  | [], pos, values, extras, v, e, hts, hpos, h => by
      rw [parseLoop.eq_1] at h
      split at h
      · injection h with h1 h2
        subst h1
        rfl
      · exact ParseOutcome.noConfusion h
  | tok :: rest, pos, values, extras, v, e, hts, hpos, h => by
      have hts' : ∀ t ∈ rest, (splitEqTok t).1 ≠ "--" ++ o ∧ t ≠ "--" ++ o :=
        fun t ht => hts t (List.mem_cons_of_mem tok ht)
      rw [parseLoop.eq_2] at h
      split at h
      · exact ParseOutcome.noConfusion h
      · split at h
        · split at h
          next base vv heq =>
            split at h
            next n hm =>
              have hm2 : optNames.find? (fun m => base == "--" ++ m) = some n := hm
              have hbeq := List.find?_some hm2
              have hbase : base = "--" ++ n := eq_of_beq hbeq
              have hfst : (splitEqTok tok).1 = base := by rw [heq]
              have hno : n ≠ o := by
                intro he
                exact (hts tok (List.mem_cons_self tok rest)).1 (by rw [hfst, hbase, he])
              rw [parseLoop_opt_untouched optNames o rest pos (setAssoc values n vv)
                extras v e hts' hpos h]
              exact lookupAssoc_setAssoc_ne values o n vv hno
            next hm =>
              exact parseLoop_opt_untouched optNames o rest pos values (extras ++ [tok])
                v e hts' hpos h
          next base heq =>
            split at h
            next n hm =>
              have hm2 : optNames.find? (fun m => tok == "--" ++ m) = some n := hm
              have htbeq := List.find?_some hm2
              have htok : tok = "--" ++ n := eq_of_beq htbeq
              have hno : n ≠ o := by
                intro he
                exact (hts tok (List.mem_cons_self tok rest)).2 (by rw [htok, he])
              split at h
              · exact ParseOutcome.noConfusion h
              next w rest2 =>
                split at h
                · exact ParseOutcome.noConfusion h
                · rw [parseLoop_opt_untouched optNames o rest2 pos (setAssoc values n w)
                    extras v e (fun t ht => hts' t (List.mem_cons_of_mem w ht)) hpos h]
                  exact lookupAssoc_setAssoc_ne values o n w hno
            next hm =>
              exact parseLoop_opt_untouched optNames o rest pos values (extras ++ [tok])
                v e hts' hpos h
        · cases pos with
          | nil =>
              simp only [posStep] at h
              exact parseLoop_opt_untouched optNames o rest [] values (extras ++ [tok])
                v e hts' hpos h
          | cons p ps =>
              have hpo : p ≠ o := by
                intro he
                exact hpos (by rw [← he]; exact List.mem_cons_self p ps)
              simp only [posStep] at h
              rw [parseLoop_opt_untouched optNames o rest ps (setAssoc values p tok)
                extras v e hts' (fun hh => hpos (List.mem_cons_of_mem p hh)) h]
              exact lookupAssoc_setAssoc_ne values o p tok hpo

/-- C3 (corrected): binding keeps named and positional forms apart.  Required
parameters are the parser's positionals: with no option-like token among the
remaining tokens they consume the non-flag tokens in declaration order, and a
`--name VALUE` pair can never target them (a `--name` token whose name is not
a declared option lands in the extras).  Optional (defaulted) parameters are
bound only by an explicit `--name VALUE` or `--name=VALUE` token: when no
token names one, it keeps its default, never being satisfied positionally. -/
theorem c3_named_positional_disjoint :
    (∀ (optNames : List String) (ts pos : List String)
        (values : List (String × String)) (extras : List String),
      (∀ t ∈ ts, optLike t = false) →
      (∀ p ∈ pos, lookupAssoc values p = none) →
      pos.Nodup →
      pos.length ≤ ts.length →
      parseLoop optNames ts pos values extras =
        .ok (values ++ pos.zip ts) (extras ++ ts.drop pos.length)) ∧
    (∀ (optNames : List String) (o : String) (ts pos : List String)
        (values : List (String × String)) (extras : List String)
        (v : List (String × String)) (e : List String),
      (∀ t ∈ ts, (splitEqTok t).1 ≠ "--" ++ o ∧ t ≠ "--" ++ o) →
      o ∉ pos →
      parseLoop optNames ts pos values extras = .ok v e →
      lookupAssoc v o = lookupAssoc values o) :=
  ⟨parseLoop_no_flags, parseLoop_opt_untouched⟩

/-- Witness for C3 (amended), at the `greet(name, greeting="hello")` parser
with remaining tokens `[Ana]`: the positional `name` takes `Ana`, the optional
`greeting` keeps its default. -/
theorem c3_witness :
    parseLoop ["greeting"] ["Ana"] ["name"] [("greeting", "hello")] [] =
      .ok ([("greeting", "hello")] ++ ["name"].zip ["Ana"]) ([] ++ ["Ana"].drop 1) ∧
    lookupAssoc [("greeting", "hello"), ("name", "Ana")] "greeting" =
      lookupAssoc [("greeting", "hello")] "greeting" :=
  ⟨c3_named_positional_disjoint.1 ["greeting"] ["Ana"] ["name"] [("greeting", "hello")] []
      (by decide) (by decide) (by decide) (by decide),
   c3_named_positional_disjoint.2 ["greeting"] "greeting" ["Ana"] ["name"]
      [("greeting", "hello")] [] [("greeting", "hello"), ("name", "Ana")] []
      (by decide) (by decide) (by decide)⟩

theorem funcOf_setChild (t : CommandNode) (k : String) (v : CommandNode) :
    (setChild t k v).funcOf = t.funcOf := rfl

theorem childrenOf_setChild (t : CommandNode) (k : String) (v : CommandNode) :
    (setChild t k v).childrenOf = t.childrenOf.setC k v := rfl

theorem funcOf_overwriteData (d : NodeData) (t : CommandNode) :
    (overwriteData d t).funcOf = if d.func.isSome then d.func else t.funcOf := by
  by_cases h : d.func.isSome
  · simp [overwriteData, h, CommandNode.funcOf, CommandNode.dataOf]
  · simp [overwriteData, h]

theorem childrenOf_overwriteData (d : NodeData) (t : CommandNode) :
    (overwriteData d t).childrenOf = t.childrenOf := by
  by_cases h : d.func.isSome
  · simp [overwriteData, h, CommandNode.childrenOf]
  · simp [overwriteData, h]

theorem funcOf_copyChildren : ∀ (cs : Children) (t : CommandNode),
    (copyChildren cs t).funcOf = t.funcOf
  | .nil, t => rfl
  | .cons k c rest, t => by
      rw [copyChildren]
      rw [funcOf_copyChildren rest _]
      exact funcOf_setChild _ _ _

theorem lookupC_eq_none_of_contains_false : ∀ (cs : Children) (k : String),
    cs.keysOf.contains k = false → cs.lookupC k = none
  | .nil, k, _ => rfl
  | .cons k0 c rest, k, h => by
      simp only [Children.keysOf, List.contains_cons, Bool.or_eq_false_iff] at h
      have hk : ¬(k0 = k) := fun he => by simp [he] at h
      simp only [Children.lookupC, hk, if_false]
      exact lookupC_eq_none_of_contains_false rest k (by simpa using h.2)

/-- How the merge loop of `copy_subtree` transforms one child slot of the
target: a source child is merged into the matching (or freshly created)
target child; slots the source does not mention are untouched. -/
theorem lookupC_copyChildren : ∀ (cs : Children) (t : CommandNode) (a : String),
    nodupC cs = true →
    (copyChildren cs t).childrenOf.lookupC a =
      (match cs.lookupC a with
       | some c => some (copySubtree c ((t.childrenOf.lookupC a).getD (freshNode a)))
       | none => t.childrenOf.lookupC a)
  | .nil, t, a, _ => by simp [copyChildren, Children.lookupC]
  | .cons k c rest, t, a, hnd => by
      simp only [nodupC, Bool.and_eq_true] at hnd
      obtain ⟨⟨hk, hct⟩, hnrest⟩ := hnd
      rw [copyChildren]
      by_cases hak : k = a
      · subst hak
        have hrestnone : rest.lookupC k = none :=
          lookupC_eq_none_of_contains_false rest k (by simpa using hk)
        rw [lookupC_copyChildren rest _ k hnrest, hrestnone]
        simp [childrenOf_setChild, lookupC_setC_self, Children.lookupC]
      · rw [lookupC_copyChildren rest _ a hnrest]
        have hset : (setChild t k
            (copySubtree c ((t.childrenOf.lookupC k).getD (freshNode k)))).childrenOf.lookupC a =
            t.childrenOf.lookupC a := by
          rw [childrenOf_setChild]
          exact lookupC_setC_ne _ _ _ _ hak
        simp only [Children.lookupC, hak, if_false]
        cases hr : rest.lookupC a with
        | none => simp [hr, hset]
        | some c2 => simp [hr, hset]

theorem nodupTree_of_lookupC : ∀ (cs : Children) (a : String) (c : CommandNode),
    nodupC cs = true → cs.lookupC a = some c → nodupTree c = true
  | .cons k c0 rest, a, c, hnd, hl => by
      simp only [nodupC, Bool.and_eq_true] at hnd
      obtain ⟨⟨hk, hct⟩, hnrest⟩ := hnd
      simp only [Children.lookupC] at hl
      by_cases hak : k = a
      · simp only [hak, if_true] at hl
        injection hl with hl
        subst hl
        exact hct
      · simp only [hak, if_false] at hl
        exact nodupTree_of_lookupC rest a c hnrest hl

theorem childrenOf_node (n : Option String) (d : NodeData) (cs : Children) :
    (CommandNode.node n d cs).childrenOf = cs := rfl

theorem funcOf_node (n : Option String) (d : NodeData) (cs : Children) :
    (CommandNode.node n d cs).funcOf = d.func := rfl

theorem funcAt_freshNode : ∀ (p : List String) (a : String),
    funcAt (freshNode a) p = none
  | [], a => rfl
  | q :: qs, a => by
      simp [funcAt_cons, freshNode, CommandNode.childrenOf, Children.lookupC]

/-- Handler visibility after `copy_subtree`: at every path, the handler of the
merged tree is the source's when the source tree bears one there, else the
target's - silent overwrite, no failure path. -/
theorem funcAt_copySubtree : ∀ (p : List String) (fn t : CommandNode),
    nodupTree fn = true →
    funcAt (copySubtree fn t) p =
      if (funcAt fn p).isSome then funcAt fn p else funcAt t p
  | [], .node nf df csf, t, hnd => by
      rw [funcAt_nil, funcAt_nil, funcAt_nil, copySubtree]
      rw [funcOf_copyChildren, funcOf_overwriteData]
      rfl
  | a :: ps, .node nf df csf, t, hnd => by
      have hnd' : nodupC csf = true := hnd
      simp only [funcAt_cons]
      rw [copySubtree, lookupC_copyChildren csf (overwriteData df t) a hnd',
        childrenOf_overwriteData]
      cases hc : csf.lookupC a with
      | none => simp [childrenOf_node, hc]
      | some c =>
          have hcnd : nodupTree c = true := nodupTree_of_lookupC csf a c hnd' hc
          simp only [childrenOf_node, hc]
          rw [funcAt_copySubtree ps c ((t.childrenOf.lookupC a).getD (freshNode a)) hcnd]
          cases ht : t.childrenOf.lookupC a with
          | some tc => simp [ht]
          | none => simp [ht, funcAt_freshNode]

/-- Handler visibility after the whole mount: descend the prefix, then merge
with source priority. -/
theorem funcAt_mountGo : ∀ (parts : List String) (g t : CommandNode) (p : List String),
    nodupTree g = true →
    funcAt (mountGo g parts t) (parts ++ p) =
      if (funcAt g p).isSome then funcAt g p else funcAt t (parts ++ p)
  | [], g, t, p, hnd => by simpa using funcAt_copySubtree p g t hnd
  | a :: as, g, t, p, hnd => by
      simp only [mountGo, List.cons_append, funcAt_cons, childrenOf_setChild,
        lookupC_setC_self]
      rw [funcAt_mountGo as g ((t.childrenOf.lookupC a).getD (freshNode a)) p hnd]
      cases ht : t.childrenOf.lookupC a with
      | some tc => simp [ht]
      | none =>
          simp only [ht, Option.getD_none]
          by_cases hg : (funcAt g p).isSome
          · simp [hg]
          · simp [hg, funcAt_freshNode]

/-- C1 (corrected): `include_group` has no failure path at all.  At every
path below the mount prefix, the resulting tree carries the mounted group's
handler whenever the group has one there - silently overwriting any handler
the target already had - and the target's handler otherwise; the target tree
is modified in place, not left unchanged, and no RegistrationConflict exists
in the code. -/
theorem c1_mount_overwrites (c g : CLI) (pre : String) (p : List String)
    (hg : nodupTree g.root = true) :
    funcAt (c.includeGroupM g pre).root (prefixParts pre ++ p) =
      if (funcAt g.root p).isSome then funcAt g.root p
      else funcAt c.root (prefixParts pre ++ p) :=
  funcAt_mountGo (prefixParts pre) g.root c.root p hg

/-- Witness for C1 (amended) at a concrete conflicting mount. -/
theorem c1_witness :
    funcAt ((mountTarget.includeGroupM mountGroup "").root)
      (prefixParts "" ++ ["x"]) =
      if (funcAt mountGroup.root ["x"]).isSome then funcAt mountGroup.root ["x"]
      else funcAt mountTarget.root (prefixParts "" ++ ["x"]) :=
  c1_mount_overwrites mountTarget mountGroup "" ["x"] (by decide)

/-- C1 counterexample: mounting a group with handler 1 at `x` onto a target
already bearing handler 0 at `x` raises nothing, replaces the handler, and
leaves the target tree changed. -/
theorem c1_counterexample :
    funcAt ((mountTarget.includeGroupM mountGroup "").root) ["x"] = some 1 ∧
    funcAt mountTarget.root ["x"] = some 0 ∧
    (mountTarget.includeGroupM mountGroup "").root ≠ mountTarget.root := by
  refine ⟨by decide, by decide, fun h => ?_⟩
  have h2 := congrArg (fun t => funcAt t ["x"]) h
  simp only at h2
  rw [show funcAt ((mountTarget.includeGroupM mountGroup "").root) ["x"] = some 1 from
    by decide] at h2
  rw [show funcAt mountTarget.root ["x"] = some 0 from by decide] at h2
  exact absurd (Option.some.inj h2) (by decide)

theorem bool_not_true {b : Bool} (h : (!b) = true) : b = false := by
  cases b
  · rfl
  · exact Bool.noConfusion h

theorem allGood_eq : ∀ t : CommandNode,
    allGood t = (goodNode t && allGoodC t.childrenOf)
  | .node _ _ _ => rfl

theorem allGoodC_of_allGood (t : CommandNode) (h : allGood t = true) :
    allGoodC t.childrenOf = true := by
  rw [allGood_eq] at h
  exact (Bool.and_eq_true_iff.mp h).2

theorem goodNode_of_allGood (t : CommandNode) (h : allGood t = true) :
    goodNode t = true := by
  rw [allGood_eq] at h
  exact (Bool.and_eq_true_iff.mp h).1

theorem allGoodC_lookup : ∀ (cs : Children) (a : String) (c : CommandNode),
    allGoodC cs = true → cs.lookupC a = some c → allGood c = true
  | .cons k c0 rest, a, c, hg, hl => by
      simp only [allGoodC, Bool.and_eq_true] at hg
      simp only [Children.lookupC] at hl
      by_cases hak : k = a
      · simp only [hak, if_true] at hl
        injection hl with hl
        subst hl
        exact hg.1
      · simp only [hak, if_false] at hl
        exact allGoodC_lookup rest a c hg.2 hl

theorem allGoodC_setC : ∀ (cs : Children) (k : String) (v : CommandNode),
    allGoodC cs = true → allGood v = true → allGoodC (cs.setC k v) = true
  | .nil, k, v, _, hv => by simp [Children.setC, allGoodC, hv]
  | .cons k0 c0 rest, k, v, hg, hv => by
      simp only [allGoodC, Bool.and_eq_true] at hg
      by_cases h0 : k0 = k
      · simp [Children.setC, h0, allGoodC, hv, hg.2]
      · simp [Children.setC, h0, allGoodC, hg.1, allGoodC_setC rest k v hg.2 hv]

theorem setC_not_nil : ∀ (cs : Children) (k : String) (v : CommandNode),
    (cs.setC k v).isNilC = false
  | .nil, k, v => rfl
  | .cons k0 c0 rest, k, v => by
      by_cases h : k0 = k
      · simp [Children.setC, h, Children.isNilC]
      · simp [Children.setC, h, Children.isNilC]

/-- Every node `cmd` creates or touches ends up live: the terminal node gains
a handler and every intermediate node gains a child. -/
theorem allGood_cmdGo (f : Nat) (ps : List Param) (hs : Option String)
    (cm : Option (List (String × List String))) :
    ∀ (parts : List String) (t : CommandNode),
      allGoodC t.childrenOf = true → allGood (cmdGo f ps hs cm parts t) = true
  | [], .node n d cs, hpre => by
      simp only [childrenOf_node] at hpre
      simp [cmdGo, allGood, hpre]
  | p :: rest, .node n d cs, hpre => by
      simp only [childrenOf_node] at hpre
      have hc : allGoodC ((cs.lookupC p).getD (freshNode p)).childrenOf = true := by
        cases hl : cs.lookupC p with
        | some c0 => exact allGoodC_of_allGood _ (allGoodC_lookup cs p c0 hpre hl)
        | none => rfl
      have hrec := allGood_cmdGo f ps hs cm rest ((cs.lookupC p).getD (freshNode p)) hc
      simp only [cmdGo]
      rw [allGood_eq]
      refine Bool.and_eq_true_iff.mpr ⟨?_, ?_⟩
      · simp [goodNode, funcOf_node, childrenOf_node, setC_not_nil]
      · simp only [childrenOf_node]
        exact allGoodC_setC cs p _ hpre hrec

mutual
/-- `copy_subtree` preserves liveness of all nodes below the merge point, and
the merge point itself is live as soon as either side was. -/
theorem copySubtree_good : ∀ (fn t : CommandNode),
    allGoodC fn.childrenOf = true → allGoodC t.childrenOf = true →
    allGoodC (copySubtree fn t).childrenOf = true ∧
    (goodNode fn = true ∨ goodNode t = true → goodNode (copySubtree fn t) = true)
  | .node nf df csf, t, hf, ht => by
      simp only [childrenOf_node] at hf
      rw [copySubtree]
      obtain ⟨hpre, hfun, hnonnil⟩ := copyChildren_good csf (overwriteData df t) hf
        (by rw [childrenOf_overwriteData]; exact ht)
      refine ⟨hpre, fun hgood => ?_⟩
      simp only [goodNode]
      rw [hfun, funcOf_overwriteData]
      rcases hgood with hgf | hgt
      · simp only [goodNode, funcOf_node, childrenOf_node] at hgf
        rcases Bool.or_eq_true_iff.mp hgf with h1 | h1
        · simp [h1]
        · have h2 : (copyChildren csf (overwriteData df t)).childrenOf.isNilC = false :=
            hnonnil (Or.inr (bool_not_true h1))
          simp [h2]
      · simp only [goodNode] at hgt
        rcases Bool.or_eq_true_iff.mp hgt with h1 | h1
        · by_cases hdf : df.func.isSome
          · simp [hdf]
          · simp [hdf, h1]
        · have h2 : (copyChildren csf (overwriteData df t)).childrenOf.isNilC = false := by
            apply hnonnil
            left
            rw [childrenOf_overwriteData]
            exact bool_not_true h1
          simp [h2]

/-- The merge loop of `copy_subtree`: children stay live, the function slot of
the node being merged into is untouched, and children never disappear. -/
theorem copyChildren_good : ∀ (cs : Children) (t : CommandNode),
    allGoodC cs = true → allGoodC t.childrenOf = true →
    allGoodC (copyChildren cs t).childrenOf = true ∧
    (copyChildren cs t).funcOf = t.funcOf ∧
    ((t.childrenOf.isNilC = false ∨ cs.isNilC = false) →
      (copyChildren cs t).childrenOf.isNilC = false)
  | .nil, t, _, ht => by
      refine ⟨ht, rfl, fun h => ?_⟩
      rcases h with h | h
      · exact h
      · exact absurd h (by simp [Children.isNilC])
  | .cons k c rest, t, hcs, ht => by
      simp only [allGoodC, Bool.and_eq_true] at hcs
      obtain ⟨hc, hrest⟩ := hcs
      have hc'pre : allGoodC ((t.childrenOf.lookupC k).getD (freshNode k)).childrenOf
          = true := by
        cases hl : t.childrenOf.lookupC k with
        | some c0 => exact allGoodC_of_allGood _ (allGoodC_lookup _ _ _ ht hl)
        | none => rfl
      obtain ⟨hM1, hM2⟩ := copySubtree_good c ((t.childrenOf.lookupC k).getD (freshNode k))
        (allGoodC_of_allGood c hc) hc'pre
      have hMall : allGood (copySubtree c ((t.childrenOf.lookupC k).getD (freshNode k)))
          = true := by
        rw [allGood_eq]
        exact Bool.and_eq_true_iff.mpr ⟨hM2 (Or.inl (goodNode_of_allGood c hc)), hM1⟩
      rw [copyChildren]
      have hts : allGoodC (setChild t k
          (copySubtree c ((t.childrenOf.lookupC k).getD (freshNode k)))).childrenOf
          = true := by
        rw [childrenOf_setChild]
        exact allGoodC_setC _ _ _ ht hMall
      obtain ⟨hr1, hr2, hr3⟩ := copyChildren_good rest
        (setChild t k (copySubtree c ((t.childrenOf.lookupC k).getD (freshNode k))))
        hrest hts
      refine ⟨hr1, ?_, fun _ => ?_⟩
      · rw [hr2, funcOf_setChild]
      · apply hr3
        left
        rw [childrenOf_setChild]
        exact setC_not_nil _ _ _
end

/-- Mounting a live group produces a live subtree at the mount point. -/
theorem allGood_mountGo : ∀ (parts : List String) (g t : CommandNode),
    allGood g = true → allGoodC t.childrenOf = true →
    allGood (mountGo g parts t) = true
  | [], g, t, hg, ht => by
      simp only [mountGo]
      obtain ⟨h1, h2⟩ := copySubtree_good g t (allGoodC_of_allGood g hg) ht
      rw [allGood_eq]
      exact Bool.and_eq_true_iff.mpr ⟨h2 (Or.inl (goodNode_of_allGood g hg)), h1⟩
  | a :: as, g, t, hg, ht => by
      simp only [mountGo]
      have hc'pre : allGoodC ((t.childrenOf.lookupC a).getD (freshNode a)).childrenOf
          = true := by
        cases hl : t.childrenOf.lookupC a with
        | some c0 => exact allGoodC_of_allGood _ (allGoodC_lookup _ _ _ ht hl)
        | none => rfl
      have hin := allGood_mountGo as g ((t.childrenOf.lookupC a).getD (freshNode a)) hg hc'pre
      rw [allGood_eq]
      refine Bool.and_eq_true_iff.mpr ⟨?_, ?_⟩
      · simp [goodNode, funcOf_setChild, childrenOf_setChild, setC_not_nil]
      · rw [childrenOf_setChild]
        exact allGoodC_setC _ _ _ ht hin

theorem allGoodC_mountGo_children : ∀ (parts : List String) (g t : CommandNode),
    allGood g = true → allGoodC t.childrenOf = true →
    allGoodC (mountGo g parts t).childrenOf = true
  | [], g, t, hg, ht => by
      simp only [mountGo]
      exact (copySubtree_good g t (allGoodC_of_allGood g hg) ht).1
  | a :: as, g, t, hg, ht => by
      simp only [mountGo]
      rw [childrenOf_setChild]
      have hc'pre : allGoodC ((t.childrenOf.lookupC a).getD (freshNode a)).childrenOf
          = true := by
        cases hl : t.childrenOf.lookupC a with
        | some c0 => exact allGoodC_of_allGood _ (allGoodC_lookup _ _ _ ht hl)
        | none => rfl
      exact allGoodC_setC _ _ _ ht
        (allGood_mountGo as g ((t.childrenOf.lookupC a).getD (freshNode a)) hg hc'pre)

/-- C9 (corrected): registration never produces a dead node - after `cmd`,
every non-root node still has a handler or a child - and `include_group`
preserves the invariant whenever the mounted group's root subtree is itself
live (in particular whenever the group holds at least one command).  The
restriction on the group is forced by the counterexample: mounting an empty
group under a fresh prefix creates a dead node. -/
theorem c9_no_dead_nodes :
    (∀ (c : CLI) (path : String) (f : Nat) (ps : List Param) (hs : Option String)
        (cm : Option (List (String × List String))),
      allGoodC c.root.childrenOf = true →
      allGoodC (c.cmdReg path f ps hs cm).root.childrenOf = true) ∧
    (∀ (c g : CLI) (pre : String),
      allGoodC c.root.childrenOf = true → allGood g.root = true →
      allGoodC (c.includeGroupM g pre).root.childrenOf = true) := by
  constructor
  · intro c path f ps hs cm hpre
    exact allGoodC_of_allGood _ (allGood_cmdGo f ps hs cm (cmdParts path) c.root hpre)
  · intro c g pre hpre hg
    exact allGoodC_mountGo_children (prefixParts pre) g.root c.root hg hpre

/-- Witness for C9 (amended): a registration and a mount of a non-empty group
on concrete trees, both preserving the invariant. -/
theorem c9_witness :
    allGoodC ((CLI.init "cli" "").cmdReg "a/b" 0 [] none none).root.childrenOf = true ∧
    allGoodC ((greetCLI.includeGroupM deployCLI "tools").root).childrenOf = true :=
  ⟨c9_no_dead_nodes.1 (CLI.init "cli" "") "a/b" 0 [] none none (by decide),
   c9_no_dead_nodes.2 greetCLI deployCLI "tools" (by decide) (by decide)⟩

/-- C9 counterexample: `include_group` with an empty group and a fresh prefix
`x` creates exactly the forbidden node - no handler, no children. -/
theorem c9_counterexample :
    allGoodC ((CLI.init "cli" "").includeGroupM (CLI.init "grp" "") "x").root.childrenOf
      = false ∧
    descendPath ((CLI.init "cli" "").includeGroupM (CLI.init "grp" "") "x").root ["x"] =
      some (freshNode "x") := by
  exact ⟨by decide, by rfl⟩

/-- C3 counterexample: the claimed precedence of `--name VALUE` over
positional consumption fails.  For required `name`, argv
`greet Bob --name Ana` binds `name` to the positional `Bob`, not to `Ana`;
for optional `greeting`, argv `greet hi` leaves `greeting` at its default
instead of consuming `hi` positionally. -/
theorem c3_counterexample :
    execCLI greetReqCLI ["greet", "Bob", "--name", "Ana"] =
      .invoke 0 [("name", "Bob")] ∧
    execCLI greetReqCLI ["greet", "Bob", "--name", "Ana"] ≠
      .invoke 0 [("name", "Ana")] ∧
    execCLI greetOptCLI ["greet", "hi"] = .invoke 0 [("greeting", "hello")] ∧
    execCLI greetOptCLI ["greet", "hi"] ≠ .invoke 0 [("greeting", "hi")] := by
  exact ⟨by decide, by decide, by decide, by decide⟩

/-- C10 counterexample: leftover tokens are not always silently ignored - a
leftover `--completion` prints the completion script and exits 0, and a
leftover `-h` makes argparse print help and exit 0; in both cases the handler
is never invoked. -/
theorem c10_counterexample :
    execCLI greetCLI ["greet", "Ana", "--completion"] = .completionExit ∧
    (∀ f kw, execCLI greetCLI ["greet", "Ana", "--completion"] ≠ .invoke f kw) ∧
    execCLI greetCLI ["greet", "Ana", "-h"] = .helpExitZero ∧
    (∀ f kw, execCLI greetCLI ["greet", "Ana", "-h"] ≠ .invoke f kw) := by
  refine ⟨by decide, fun f kw h => ?_, by decide, fun f kw h => ?_⟩
  · have h0 : execCLI greetCLI ["greet", "Ana", "--completion"] = .completionExit := by
      decide
    rw [h0] at h
    exact ExecResult.noConfusion h
  · have h0 : execCLI greetCLI ["greet", "Ana", "-h"] = .helpExitZero := by decide
    rw [h0] at h
    exact ExecResult.noConfusion h

end Cly
